import Mathlib

/-!
Verification of the AstraGuard orbital screening and trend-gated decision
pipeline against its specification.

The development shallowly embeds the relevant program functions:

* `packages/orbit/trend.py`: sample-grid construction, trend metrics,
  the gate classifier and the defer-until computation;
* `packages/orbit/risk.py`: the isotropic assumed-covariance collision
  probability (trapezoidal quadrature of a 2D Gaussian over the
  hard-body disk, with the angular part folded into a Bessel `I0`);
* `packages/orbit/maneuver.py`: the minimum delta-v planner;
* `scripts/run_screening.py`: event canonicalization, ranking order and
  artifact write order.

Modelling conventions: UTC instants are integer microseconds (Python
`datetime` precision); ISO serialization at second resolution floors the
microsecond field.  Python floats on exactly-representable program paths
are modelled by `ℚ`; the transcendental quadrature in `risk.py` is
modelled over `ℝ` with exact `Real.exp` and the Bessel series `I0`.
Python `list.sort` is stable, which is modelled by an insertion sort
that moves an element past its equals.
-/

namespace AstraGuard

/-! ## Kernel-reducible exact rational arithmetic

Python float arithmetic on the program paths below is modelled by exact
rationals.  The standard `ℚ` field operations do not reduce inside the
kernel, so the embedding uses `mkRat`-based operations (provably equal to
the field operations) to keep every definition evaluable by `decide`. -/

/-- Exact rational multiplication, kernel-reducible. -/
def qmul (a b : ℚ) : ℚ := mkRat (a.num * b.num) (a.den * b.den)

/-- Exact rational addition, kernel-reducible. -/
def qadd (a b : ℚ) : ℚ := mkRat (a.num * b.den + b.num * a.den) (a.den * b.den)

/-- Exact rational subtraction, kernel-reducible. -/
def qsub (a b : ℚ) : ℚ := mkRat (a.num * b.den - b.num * a.den) (a.den * b.den)

/-- Exact rational division, kernel-reducible. -/
def qdiv (a b : ℚ) : ℚ := Rat.divInt (a.num * b.den) (a.den * b.num)

/-! ## Time model -/

/-- Microseconds per second; UTC instants are integer microseconds since
an (arbitrary) epoch, written as plain `Int`. -/
def usPerSecond : Int := 1000000

def secondsUs (s : Int) : Int := s * usPerSecond

def minutesUs (m : Int) : Int := m * 60 * usPerSecond

def hoursUs (h : Int) : Int := h * 3600 * usPerSecond

/-- Instant denoted by the ISO-8601 rendering of `t` at second resolution:
`_iso_utc` uses strftime without microseconds, which floors `t` to a whole
second (`Int.emod` is the nonnegative remainder). -/
def isoDenotedUs (t : Int) : Int := t - t % usPerSecond

/-! ## Gate classifier (`trend.py`) -/

/-- Decision hints emitted by the gate (`classify_trend_gate`). -/
inductive Decision
  | IGNORE
  | DEFER
  | MANEUVER
deriving DecidableEq, Repr

/-- Trend metrics dictionary produced by `compute_trend_metrics`.
`pc_slope` is a least-squares slope of `log10`, hence a real number; all
other numeric fields arise from field arithmetic on program inputs and are
modelled by `ℚ`. -/
structure TrendMetrics where
  pc_peak : ℚ
  pc_slope : ℝ
  pc_stability : ℚ
  window_minutes : Int
  cadence_seconds : Int
  sample_count : Nat
  time_to_tca_hours : ℚ
  threshold : ℚ
  critical_override : ℚ

/-- Embedding of `compute_defer_until_utc` (with the default
`revisit_hours = 6`, `tca_guard_hours = 12`): take
`min(tca - 12h, now + 6h)` and clamp from below at `now + 10min`. -/
def computeDeferUntilUs (tca now : Int) : Int :=
  let candidateA := tca - hoursUs 12
  let candidateB := now + hoursUs 6
  let deferUntil := min candidateA candidateB
  let minAllowed := now + minutesUs 10
  if deferUntil < minAllowed then minAllowed else deferUntil

/-- Result dictionary of `classify_trend_gate` (decision hint, reason code,
optional defer instant).  The free-text `gate_reason` is omitted. -/
structure GateResult where
  decision : Decision
  reasonCode : String
  deferUntilUs : Option Int
deriving DecidableEq

/-- Embedding of `classify_trend_gate`: the four rules in program order. -/
noncomputable def classifyTrendGate (m : TrendMetrics) (tca now : Int)
    (deferHours : ℚ) : GateResult :=
  if m.time_to_tca_hours > deferHours ∧ m.pc_peak < m.critical_override then
    { decision := .DEFER
      reasonCode := "FAR_FROM_TCA"
      deferUntilUs := some (computeDeferUntilUs tca now) }
  else if m.pc_peak < m.threshold then
    { decision := .IGNORE
      reasonCode := "BELOW_THRESHOLD"
      deferUntilUs := none }
  else if m.pc_slope ≤ 0 ∧ m.pc_stability < mkRat 3 10 then
    { decision := .DEFER
      reasonCode := "SPIKY_NOT_SUSTAINED"
      deferUntilUs := some (computeDeferUntilUs tca now) }
  else
    { decision := .MANEUVER
      reasonCode := "SUSTAINED_RISK"
      deferUntilUs := none }

/-- Concrete metrics hitting gate rule 1 (far from TCA, below override). -/
def metricsFar : TrendMetrics :=
  { pc_peak := mkRat 1 10000, pc_slope := 0, pc_stability := 1
    window_minutes := 30, cadence_seconds := 60, sample_count := 31
    time_to_tca_hours := 48, threshold := mkRat 1 100000
    critical_override := mkRat 1 1000 }

/-- Concrete metrics hitting gate rule 2 (below threshold). -/
def metricsIgn : TrendMetrics :=
  { pc_peak := 0, pc_slope := 0, pc_stability := 0
    window_minutes := 30, cadence_seconds := 60, sample_count := 31
    time_to_tca_hours := 1, threshold := mkRat 1 100000
    critical_override := mkRat 1 1000 }

/-- Concrete metrics hitting gate rule 3 (spiky, not sustained). -/
def metricsSpk : TrendMetrics :=
  { pc_peak := mkRat 1 100000, pc_slope := 0, pc_stability := 0
    window_minutes := 30, cadence_seconds := 60, sample_count := 31
    time_to_tca_hours := 1, threshold := mkRat 1 100000
    critical_override := mkRat 1 1000 }

/-- Concrete metrics hitting gate rule 4 (sustained risk). -/
def metricsMan : TrendMetrics :=
  { pc_peak := mkRat 4 100000, pc_slope := 0, pc_stability := 1
    window_minutes := 30, cadence_seconds := 60, sample_count := 31
    time_to_tca_hours := 4, threshold := mkRat 1 100000
    critical_override := mkRat 1 1000 }

/-! ## Trend sample grid (`trend.py`, `_build_sample_times`) -/

/-- Embedding of `_build_sample_times`, as signed offsets in whole seconds
relative to TCA.  Python `range(-W, W + 1, c)` enumerates `-W + j * c` for
`0 ≤ j ≤ (2 * W) / c` (integer division, `c > 0`), so it is anchored at
`-W`.  The empty-guard branch is kept from the source although the range
is never empty, and the `+W` endpoint is appended when absent. -/
def buildSampleOffsets (windowMinutes cadenceSeconds : Int) : List Int :=
  let halfWindowS := 60 * max 0 windowMinutes
  let cadenceS := max 1 cadenceSeconds
  let steps := (2 * halfWindowS / cadenceS).toNat + 1
  let offsets :=
    (List.range steps).map (fun (j : ℕ) => -halfWindowS + (j : Int) * cadenceS)
  let offsets := if offsets = [] then [0] else offsets
  if offsets.getLast? = some halfWindowS then offsets else offsets ++ [halfWindowS]

/-! ## Event canonicalization (`run_screening.py`, `main`) -/

/-- Pair identity and groups of a refined candidate row. -/
structure CandidatePair where
  primaryId : Nat
  secondaryId : Nat
  primaryGroup : String
  secondaryGroup : String
deriving DecidableEq, Repr

/-- Embedding of the canonicalization in `main`: when
`secondary_id < primary_id`, swap the ids and swap the groups with them. -/
def canonicalizePair (p : CandidatePair) : CandidatePair :=
  if p.secondaryId < p.primaryId then
    { primaryId := p.secondaryId, secondaryId := p.primaryId
      primaryGroup := p.secondaryGroup, secondaryGroup := p.primaryGroup }
  else p

/-- Embedding of the `event_id` f-string
(Python `str` of a nonnegative int is decimal, as `toString` on `Nat`). -/
def eventId (primaryId secondaryId : Nat) (tcaUtc : String) : String :=
  "EVT-" ++ toString primaryId ++ "-" ++ toString secondaryId ++ "-" ++ tcaUtc

/-- Scenario F input: a refined candidate reported with primary 99 and
secondary 5. -/
def pair99 : CandidatePair :=
  { primaryId := 99, secondaryId := 5
    primaryGroup := "ACTIVE", secondaryGroup := "COSMOS-2251-DEBRIS" }

/-! ## Artifact write order (`run_screening.py`) -/

/-- Artifact files written by a screening run. -/
inductive Artifact
  | cesiumSnapshot
  | topConjunctions
  | maneuverPlans
  | manifest
deriving DecidableEq, Repr

/-- On-disk file name of each artifact. -/
def artifactFileName : Artifact → String
  | .cesiumSnapshot => "cesium_orbits_snapshot.json"
  | .topConjunctions => "top_conjunctions.json"
  | .maneuverPlans => "maneuver_plans.json"
  | .manifest => "artifacts_latest.json"

/-- Order in which `main` performs the artifact writes, transcribed from
the straight-line tail of the driver: `_write_snapshot` during the
snapshot stage, then `_write_maneuver_plans_output` at the end of the
trend-and-plans stage, then `_write_top_outputs`, then
`_write_artifacts_latest` (the manifest) as the final write. -/
def mainWriteOrder : List Artifact :=
  [.cesiumSnapshot, .maneuverPlans, .topConjunctions, .manifest]

/-! ## Stable sorting

Python `sorted` / `list.sort` are stable sorts; a stable sort is
extensionally determined by the (total, decidable) strict key order, so it
is modelled by an insertion sort that moves the inserted element past
every strictly smaller element and stops at the first element not
strictly smaller (ties keep the earlier element first). -/

/-- Stable insertion of `a` into `l` for the strict order `lt`. -/
def insertBy (lt : α → α → Prop) [DecidableRel lt] (a : α) :
    List α → List α
  | [] => [a]
  | b :: l => if lt b a then b :: insertBy lt a l else a :: b :: l

/-- Stable insertion sort for the strict order `lt`. -/
def sortBy (lt : α → α → Prop) [DecidableRel lt] : List α → List α
  | [] => []
  | a :: l => insertBy lt a (sortBy lt l)

/-! ## Civil time (whole seconds)

Seconds since the Unix epoch of a civil UTC date-time, used to give the
scenario instants concrete meaning (standard days-from-civil algorithm;
`/` and `%` on `Int` are Euclidean, which agrees with Python `//`/`%` for
the operand signs arising here). -/

def daysFromCivil (y m d : Int) : Int :=
  let yAdj := if m ≤ 2 then y - 1 else y
  let era := (if 0 ≤ yAdj then yAdj else yAdj - 399) / 400
  let yoe := yAdj - era * 400
  let mp := (m + 9) % 12
  let doy := (153 * mp + 2) / 5 + d - 1
  let doe := yoe * 365 + yoe / 4 - yoe / 100 + doy
  era * 146097 + doe - 719468

def epochS (y m d hh mm ss : Int) : Int :=
  daysFromCivil y m d * 86400 + hh * 3600 + mm * 60 + ss

/-! ## Maneuver planner (`maneuver.py`) -/

/-- Embedding of the `ManeuverPolicy` dataclass. -/
structure PlannerPolicy where
  miss_distance_target_m : ℚ
  max_delta_v_mps : ℚ
  candidate_offsets_h : List ℚ
  late_burn_minutes : ℚ
deriving DecidableEq, Repr

/-- Python `max(0.0, x)`. -/
def maxQ0 (x : ℚ) : ℚ := if x ≤ 0 then 0 else x

/-- RTN direction gains (`_direction_gains`), in Python dict insertion
order: along-track gains 1.0, radial and normal gains 0.3. -/
def directionGains : List (String × ℚ) :=
  [("+T", 1), ("-T", 1), ("+R", mkRat 3 10), ("-R", mkRat 3 10),
    ("+N", mkRat 3 10), ("-N", mkRat 3 10)]

/-- Embedding of `_required_delta_v`: `none` when the lead time or gain
is nonpositive, `0` when the gap is closed, else `gap / (lead · gain)`. -/
def requiredDeltaV (gapM leadTimeS gain : ℚ) : Option ℚ :=
  if leadTimeS ≤ 0 ∨ gain ≤ 0 then none
  else if gapM ≤ 0 then some 0
  else some (qdiv gapM (qmul leadTimeS gain))

/-- Embedding of `_expected_miss`:
`current + max(0, delta_v · lead · gain)`. -/
def expectedMiss (currentMissM deltaVmps leadTimeS gain : ℚ) : ℚ :=
  qadd currentMissM
    (let deltaM := qmul (qmul deltaVmps leadTimeS) gain
     if deltaM ≤ 0 then 0 else deltaM)

/-- Candidate row assembled in `plan_min_delta_v` (time as ℚ seconds
since the epoch). -/
structure PlanCandidate where
  burnTimeS : ℚ
  direction : String
  deltaVmps : ℚ
  expectedMissM : ℚ
  feasible : Bool
  leadTimeS : ℚ
  gain : ℚ
deriving DecidableEq, Repr

/-- Python string comparison: lexicographic on the code-point sequence
(the character list underlying the string). -/
def strLt (a b : String) : Prop := a.data < b.data

instance : DecidableRel strLt := fun a b =>
  inferInstanceAs (Decidable (a.data < b.data))

/-- Sort key order of the planner: `(delta_v, lead_time, direction)`
lexicographic, strictly. -/
def candLt (a b : PlanCandidate) : Prop :=
  a.deltaVmps < b.deltaVmps ∨
    (a.deltaVmps = b.deltaVmps ∧
      (a.leadTimeS < b.leadTimeS ∨
        (a.leadTimeS = b.leadTimeS ∧ strLt a.direction b.direction)))

instance : DecidableRel candLt := fun a b =>
  inferInstanceAs (Decidable (a.deltaVmps < b.deltaVmps ∨
    (a.deltaVmps = b.deltaVmps ∧
      (a.leadTimeS < b.leadTimeS ∨
        (a.leadTimeS = b.leadTimeS ∧ strLt a.direction b.direction)))))

/-- Ascending order on offsets (Python `sorted` on floats). -/
def qlt (a b : ℚ) : Prop := a < b

instance : DecidableRel qlt := fun a b =>
  inferInstanceAs (Decidable (a < b))

/-- Candidate grid of `plan_min_delta_v`: offsets ascending (outer loop),
directions in dict order (inner loop). -/
def planCandidates (tcaS missM : ℚ) (policy : PlannerPolicy) :
    List PlanCandidate :=
  let targetM := maxQ0 policy.miss_distance_target_m
  let gapM := maxQ0 (qsub targetM missM)
  let cap := maxQ0 policy.max_delta_v_mps
  (sortBy qlt policy.candidate_offsets_h).flatMap fun offsetH =>
    let burnTime := qsub tcaS (qmul offsetH 3600)
    let leadTimeS := qsub tcaS burnTime
    directionGains.map fun dg =>
      let deltaVReq := requiredDeltaV gapM leadTimeS dg.2
      { burnTimeS := burnTime
        direction := dg.1
        deltaVmps := match deltaVReq with
          | some v => v
          | none => qadd cap 1
        expectedMissM := expectedMiss missM (deltaVReq.getD 0) leadTimeS dg.2
        feasible := match deltaVReq with
          | some v => decide (v ≤ cap)
          | none => false
        leadTimeS := leadTimeS
        gain := dg.2 }

/-- Result of `plan_min_delta_v` (selected plan plus the late-burn
baseline fields). -/
structure ManeuverPlanOut where
  burnTimeS : Option ℚ
  frame : String
  direction : Option String
  deltaVmps : Option ℚ
  expectedMissM : ℚ
  feasibility : String
  earlyVsLate : Option ℚ
  currentMissM : ℚ
  targetMissM : ℚ
  lateBurnTimeS : ℚ
  lateDirection : String
  lateDeltaVmps : ℚ
deriving DecidableEq, Repr

/-- Embedding of `plan_min_delta_v`: filter feasible candidates, sort by
`(delta_v, lead, direction)`, select the head; otherwise emit the
infeasible plan with the current miss and the late baseline. -/
def planMinDeltaV (tcaS missM : ℚ) (policy : PlannerPolicy) :
    ManeuverPlanOut :=
  let targetM := maxQ0 policy.miss_distance_target_m
  let gapM := maxQ0 (qsub targetM missM)
  let cap := maxQ0 policy.max_delta_v_mps
  let candidates := planCandidates tcaS missM policy
  let feasSorted := sortBy candLt (candidates.filter (·.feasible))
  let lateBurnS := qsub tcaS (qmul policy.late_burn_minutes 60)
  let lateLeadS := qsub tcaS lateBurnS
  let lateDeltaV := requiredDeltaV gapM lateLeadS 1
  let lateDeltaVOut := match lateDeltaV with
    | some v => v
    | none => qadd cap 1
  match feasSorted with
  | sel :: _ =>
    { burnTimeS := some sel.burnTimeS
      frame := "RTN"
      direction := some sel.direction
      deltaVmps := some sel.deltaVmps
      expectedMissM := sel.expectedMissM
      feasibility := "feasible"
      earlyVsLate := match lateDeltaV with
        | some lv => if 0 < lv then some (qdiv sel.deltaVmps lv) else none
        | none => none
      currentMissM := missM
      targetMissM := targetM
      lateBurnTimeS := lateBurnS
      lateDirection := "+T"
      lateDeltaVmps := lateDeltaVOut }
  | [] =>
    { burnTimeS := none
      frame := "RTN"
      direction := none
      deltaVmps := none
      expectedMissM := missM
      feasibility := "infeasible"
      earlyVsLate := none
      currentMissM := missM
      targetMissM := targetM
      lateBurnTimeS := lateBurnS
      lateDirection := "+T"
      lateDeltaVmps := lateDeltaVOut }

/-- Scenario B policy: target 1000 m, cap 0.5 m/s, offsets 24/12/6/2 h,
late burn 30 min. -/
def policyB : PlannerPolicy :=
  { miss_distance_target_m := 1000, max_delta_v_mps := mkRat 1 2
    candidate_offsets_h := [24, 12, 6, 2], late_burn_minutes := 30 }

/-- Scenario C policy: target 5000 m, cap 1e-4 m/s, single 2 h offset. -/
def policyC : PlannerPolicy :=
  { miss_distance_target_m := 5000, max_delta_v_mps := mkRat 1 10000
    candidate_offsets_h := [2], late_burn_minutes := 30 }

/-! ## Event ranking order (`run_screening.py`) -/

/-- The ranked fields of a `ConjunctionEvent` relevant to ordering. -/
structure RankedEvent where
  event_id : String
  risk_score : ℚ
  miss_distance_m : ℚ
deriving DecidableEq, Repr

/-- Strict order of `events.sort(key=lambda e: (-risk, miss))`:
lexicographic on `(-risk_score, miss_distance_m)`. -/
def eventLt (a b : RankedEvent) : Prop :=
  b.risk_score < a.risk_score ∨
    (a.risk_score = b.risk_score ∧ a.miss_distance_m < b.miss_distance_m)

instance : DecidableRel eventLt := fun a b =>
  inferInstanceAs (Decidable (b.risk_score < a.risk_score ∨
    (a.risk_score = b.risk_score ∧
      a.miss_distance_m < b.miss_distance_m)))

/-- Embedding of the ranking sort in `main` (Python `list.sort` is
stable: ties keep insertion order). -/
def sortEventsByRisk (l : List RankedEvent) : List RankedEvent :=
  sortBy eventLt l

/-- Witness policy for the planner selection: single 24 h offset,
target 1000 m, cap 0.5 m/s. -/
def policyW : PlannerPolicy :=
  { miss_distance_target_m := 1000, max_delta_v_mps := mkRat 1 2
    candidate_offsets_h := [24], late_burn_minutes := 30 }

/-- Sort key of a ranked event: `(-risk_score, miss_distance_m)`
lexicographically. -/
def eventKey (e : RankedEvent) : ℚ ×ₗ ℚ :=
  toLex (-e.risk_score, e.miss_distance_m)

/-- Two events with equal risk and miss whose ids are in reverse
lexicographic order, in insertion order `[eventHi, eventLo]`. -/
def eventHi : RankedEvent :=
  { event_id := "EVT-9-10-2026-02-23T12:00:00Z"
    risk_score := mkRat 1 100, miss_distance_m := 500 }

def eventLo : RankedEvent :=
  { event_id := "EVT-1-2-2026-02-23T12:00:00Z"
    risk_score := mkRat 1 100, miss_distance_m := 500 }

/-- Selected candidate for `policyW` at TCA 0, miss 200 m: the 24 h
along-track burn. -/
def selW : PlanCandidate :=
  { burnTimeS := -86400, direction := "+T", deltaVmps := mkRat 1 108
    expectedMissM := 1000, feasible := true, leadTimeS := 86400, gain := 1 }

/-- Remaining feasible candidates for `policyW` at TCA 0, miss 200 m, in
sorted order after `selW`. -/
def restW : List PlanCandidate :=
  [{ burnTimeS := -86400, direction := "-T", deltaVmps := mkRat 1 108
     expectedMissM := 1000, feasible := true, leadTimeS := 86400, gain := 1 },
   { burnTimeS := -86400, direction := "+N", deltaVmps := mkRat 5 162
     expectedMissM := 1000, feasible := true, leadTimeS := 86400
     gain := mkRat 3 10 },
   { burnTimeS := -86400, direction := "+R", deltaVmps := mkRat 5 162
     expectedMissM := 1000, feasible := true, leadTimeS := 86400
     gain := mkRat 3 10 },
   { burnTimeS := -86400, direction := "-N", deltaVmps := mkRat 5 162
     expectedMissM := 1000, feasible := true, leadTimeS := 86400
     gain := mkRat 3 10 },
   { burnTimeS := -86400, direction := "-R", deltaVmps := mkRat 5 162
     expectedMissM := 1000, feasible := true, leadTimeS := 86400
     gain := mkRat 3 10 }]

/-! ## Trend-gate fallback (`trend.py`, `evaluate_trend_gate`)

`build_local_pc_series` depends on SGP4 propagation, so the series it
returns is a parameter (`built`) here; the claim under study is about the
fallback taken when that series is empty.  Sample timestamps are modelled
as UTC microsecond counts, event dictionary keys that may be absent as
`Option ℚ` (present keys hold floats). -/

/-- One sample of the local Pc series (`t_utc`, `miss_m`, `pc`). -/
structure TrendSample where
  t_us : Int
  miss_m : ℚ
  pc : ℚ
deriving DecidableEq

/-- The fields of the event dictionary read by `evaluate_trend_gate`. -/
structure EventRec where
  tca_us : Int
  miss_distance_m : Option ℚ
  pc_assumed : Option ℚ
  p_collision : Option ℚ

/-- `float(event.get("pc_assumed", event.get("p_collision", 0.0)) or 0.0)`:
the dict-get chain prefers `pc_assumed`, then `p_collision`, then `0.0`
(the trailing `or 0.0` maps a falsy `0.0` to `0.0`, the identity on
floats). -/
def fallbackPc (ev : EventRec) : ℚ :=
  match ev.pc_assumed with
  | some v => v
  | none =>
    match ev.p_collision with
    | some v => v
    | none => 0

/-- `float(event.get("miss_distance_m", 0.0) or 0.0)`. -/
def fallbackMiss (ev : EventRec) : ℚ :=
  match ev.miss_distance_m with
  | some v => v
  | none => 0

/-- `_series_time_seconds`: seconds offsets of the samples from the first
sample (empty input gives the empty array). -/
def seriesX : List TrendSample → List ℚ
  | [] => []
  | s0 :: rest =>
    (s0 :: rest).map (fun s => mkRat (s.t_us - s0.t_us) 1000000)

/-- Degree-one `np.polyfit` slope: the least-squares slope
`(n Σxy - Σx Σy) / (n Σx² - (Σx)²)`. -/
noncomputable def slopeLS (x y : List ℝ) : ℝ :=
  let n : ℝ := x.length
  let sx := x.foldr (fun a b => a + b) 0
  let sy := y.foldr (fun a b => a + b) 0
  let sxx := (x.map (fun v => v * v)).foldr (fun a b => a + b) 0
  let sxy := ((x.zip y).map (fun p => p.1 * p.2)).foldr (fun a b => a + b) 0
  (n * sxy - sx * sy) / (n * sxx - sx * sx)

/-- `np.log10`. -/
noncomputable def log10r (v : ℝ) : ℝ := Real.log v / Real.log 10

/-- Embedding of `compute_trend_metrics`.  `pcs` clamps each sample at 0,
so folding the element-wise maximum from 0 coincides with `np.max` on a
non-empty series; `np.mean(pcs >= cutoff)` is the satisfying count over
the length. -/
noncomputable def computeTrendMetrics (series : List TrendSample)
    (tca_us now_us : Int) (wm cs : Int) (thr crit : ℚ) : TrendMetrics :=
  let pcs := series.map (fun s => maxQ0 s.pc)
  let x := seriesX series
  let pc_peak : ℚ := if series = [] then 0 else pcs.foldr max 0
  let stableCutoff := qmul (mkRat 1 2) pc_peak
  let pc_stability : ℚ :=
    if series = [] then 0
    else if 0 < pc_peak then
      mkRat (pcs.countP (fun p => decide (stableCutoff ≤ p))) series.length
    else 0
  let xmin := x.foldr min 0
  let xmax := x.foldr max 0
  let pc_slope : ℝ :=
    if 2 ≤ series.length ∧ xmin < xmax then
      slopeLS (x.map (fun q => (q : ℝ)))
        (pcs.map (fun p => log10r ((p : ℝ) + 1 / 10 ^ 16)))
    else 0
  { pc_peak := pc_peak, pc_slope := pc_slope, pc_stability := pc_stability
    window_minutes := wm, cadence_seconds := cs
    sample_count := series.length
    time_to_tca_hours := mkRat (tca_us - now_us) 3600000000
    threshold := thr, critical_override := crit }

/-- The dictionary returned by `evaluate_trend_gate` (series, metrics,
gate fields). -/
structure GateEval where
  pc_series : List TrendSample
  metrics : TrendMetrics
  gate : GateResult

/-- Embedding of `evaluate_trend_gate`, parameterized by the series the
SGP4 stage produced: on an empty series substitute the single fallback
sample at the event TCA, then compute metrics and classify. -/
noncomputable def evaluateTrendGate (built : List TrendSample)
    (ev : EventRec) (now_us : Int) (wm cs : Int)
    (thr crit deferHours : ℚ) : GateEval :=
  let series :=
    if built = [] then
      [{ t_us := ev.tca_us, miss_m := fallbackMiss ev
         pc := fallbackPc ev }]
    else built
  let m := computeTrendMetrics series ev.tca_us now_us wm cs thr crit
  { pc_series := series, metrics := m
    gate := classifyTrendGate m ev.tca_us now_us deferHours }

/-- An event carrying `p_collision` but no `pc_assumed` key. -/
def evNoPc : EventRec :=
  { tca_us := 0, miss_distance_m := some 1000, pc_assumed := none
    p_collision := some (mkRat 1 2) }

/-! ## Isotropic collision probability (`risk.py`)

`pc_assumed_encounter_isotropic` integrates a 2D isotropic Gaussian over
the offset hard-body disk: nodes `np.linspace(0, radius, count)`, radial
integrand `(ρ/σ²)·exp(−(ρ²+r²)/(2σ²))·I0(ρr/σ²)`, composite trapezoid
rule `np.trapz`.  The embedding is over exact reals, with the
`np.isfinite` guard modelled explicitly: the only non-finite float64
value the pipeline can produce is an overflowed `np.i0` (cephes computes
`exp(arg)·(bounded factor)` for large arguments, the exponential factor
lies in `[0, 1]`, and every product stays below the `i0` magnitude), so
`np.trapz` is non-finite exactly when `exp` of some node's `i0` argument
exceeds the largest double. -/

/-- Series form of the modified Bessel function of order zero used by
`np.i0`: `I0(y) = Σ_k (y²/4)^k / (k!)²`. -/
noncomputable def besselI0 (y : ℝ) : ℝ :=
  tsum (fun k : ℕ => (y ^ 2 / 4) ^ k / ((k.factorial : ℝ)) ^ 2)

/-- Node `i` of `np.linspace(0.0, radius, count)`. -/
noncomputable def pcNode (radius : ℝ) (count : ℕ) (i : ℕ) : ℝ :=
  radius * i / ((count : ℝ) - 1)

/-- The radial integrand of the Pc quadrature. -/
noncomputable def pcIntegrand (r scale ρ : ℝ) : ℝ :=
  ρ / scale * Real.exp (-(ρ * ρ + r * r) / (2 * scale)) *
    besselI0 (ρ * r / scale)

/-- `np.trapz(integrand, rho)` on the `linspace` grid. -/
noncomputable def pcTrapz (r scale radius : ℝ) (count : ℕ) : ℝ :=
  ∑ i ∈ Finset.range (count - 1),
    (pcNode radius count (i + 1) - pcNode radius count i) *
      (pcIntegrand r scale (pcNode radius count i) +
        pcIntegrand r scale (pcNode radius count (i + 1))) / 2

/-- The largest finite IEEE-754 double, `(2^53 - 1)·2^971`. -/
def maxFloat64 : ℝ := 9007199254740991 * 2 ^ 971

/-- The `np.isfinite` failure condition of the quadrature: some node's
`np.i0` value overflows, which happens exactly when the exponential of
its argument exceeds the largest double. -/
def pcNonFinite (r scale radius : ℝ) (count : ℕ) : Prop :=
  ∃ i ∈ Finset.range count,
    maxFloat64 < Real.exp (pcNode radius count i * r / scale)

open Classical in
/-- Embedding of `pc_assumed_encounter_isotropic`: clamp the miss and
radius at 0, return 0 when `σ ≤ 0` or `radius ≤ 0`, return 0 through the
`np.isfinite` guard when an `np.i0` factor overflows at some node, and
otherwise clamp the trapezoid value on `max 16 n_r` nodes into
`[0, 1]`. -/
noncomputable def pcAssumedEncounterIsotropic (miss sigma hbr : ℝ)
    (n_r : ℕ) : ℝ :=
  let r := max 0 miss
  let radius := max 0 hbr
  if sigma ≤ 0 ∨ radius ≤ 0 then 0
  else
    let count := max 16 n_r
    let scale := sigma * sigma
    if pcNonFinite r scale radius count then 0
    else max 0 (min 1 (pcTrapz r scale radius count))

/-! ## Theorems -/

theorem qmul_eq (a b : ℚ) : qmul a b = a * b := (Rat.mul_eq_mkRat a b).symm

theorem qadd_eq (a b : ℚ) : qadd a b = a + b := (Rat.add_def' a b).symm

theorem qsub_eq (a b : ℚ) : qsub a b = a - b := (Rat.sub_def' a b).symm

theorem qdiv_eq (a b : ℚ) : qdiv a b = a / b := (Rat.div_def' a b).symm

/-- C1: the gate classifier applies the four rules in order: time gate
(DEFER, FAR_FROM_TCA, with a defer instant), else below-threshold
(IGNORE, BELOW_THRESHOLD, no defer), else non-positive slope with low
stability (DEFER, SPIKY_NOT_SUSTAINED, with a defer instant), else
MANEUVER (SUSTAINED_RISK, no defer).  In particular any metrics with
`pc_peak < threshold` that do not hit the time gate yield IGNORE. -/
theorem gate_classifier_rules (m : TrendMetrics) (tca now : Int) (dh : ℚ) :
    (m.time_to_tca_hours > dh → m.pc_peak < m.critical_override →
      classifyTrendGate m tca now dh =
        { decision := .DEFER, reasonCode := "FAR_FROM_TCA"
          deferUntilUs := some (computeDeferUntilUs tca now) }) ∧
    (¬ (m.time_to_tca_hours > dh ∧ m.pc_peak < m.critical_override) →
      m.pc_peak < m.threshold →
      classifyTrendGate m tca now dh =
        { decision := .IGNORE, reasonCode := "BELOW_THRESHOLD"
          deferUntilUs := none }) ∧
    (¬ (m.time_to_tca_hours > dh ∧ m.pc_peak < m.critical_override) →
      ¬ m.pc_peak < m.threshold →
      m.pc_slope ≤ 0 → m.pc_stability < mkRat 3 10 →
      classifyTrendGate m tca now dh =
        { decision := .DEFER, reasonCode := "SPIKY_NOT_SUSTAINED"
          deferUntilUs := some (computeDeferUntilUs tca now) }) ∧
    (¬ (m.time_to_tca_hours > dh ∧ m.pc_peak < m.critical_override) →
      ¬ m.pc_peak < m.threshold →
      ¬ (m.pc_slope ≤ 0 ∧ m.pc_stability < mkRat 3 10) →
      classifyTrendGate m tca now dh =
        { decision := .MANEUVER, reasonCode := "SUSTAINED_RISK"
          deferUntilUs := none }) := by
  unfold classifyTrendGate
  refine ⟨fun h1 h2 => ?_, fun hn1 h2 => ?_, fun hn1 hn2 h3 h4 => ?_,
    fun hn1 hn2 hn3 => ?_⟩
  · rw [if_pos ⟨h1, h2⟩]
  · rw [if_neg hn1, if_pos h2]
  · rw [if_neg hn1, if_neg hn2, if_pos ⟨h3, h4⟩]
  · rw [if_neg hn1, if_neg hn2, if_neg hn3]

/-- Witness for C1: each of the four rules fires on a concrete metrics
record. -/
theorem gate_classifier_rules_spot :
    classifyTrendGate metricsFar 0 0 24 =
      { decision := .DEFER, reasonCode := "FAR_FROM_TCA"
        deferUntilUs := some (computeDeferUntilUs 0 0) } ∧
    classifyTrendGate metricsIgn 0 0 24 =
      { decision := .IGNORE, reasonCode := "BELOW_THRESHOLD"
        deferUntilUs := none } ∧
    classifyTrendGate metricsSpk 0 0 24 =
      { decision := .DEFER, reasonCode := "SPIKY_NOT_SUSTAINED"
        deferUntilUs := some (computeDeferUntilUs 0 0) } ∧
    classifyTrendGate metricsMan 0 0 24 =
      { decision := .MANEUVER, reasonCode := "SUSTAINED_RISK"
        deferUntilUs := none } :=
  ⟨(gate_classifier_rules metricsFar 0 0 24).1 (by decide) (by decide),
   (gate_classifier_rules metricsIgn 0 0 24).2.1
     (fun h => absurd h.1 (by decide)) (by decide),
   (gate_classifier_rules metricsSpk 0 0 24).2.2.1
     (fun h => absurd h.1 (by decide)) (by decide) (le_refl 0) (by decide),
   (gate_classifier_rules metricsMan 0 0 24).2.2.2
     (fun h => absurd h.1 (by decide)) (by decide)
     (fun h => absurd h.2 (by decide))⟩

/-- C9 (amended): the computed defer instant equals
`max(now + 10min, min(tca - 12h, now + 6h))` and is never below
`now + 10min`; the ISO rendering floors to whole seconds, so the denoted
instant is never below `now + 10min` when `now` is a whole second, and in
general never below `now + 10min - 1s`. -/
theorem defer_until_formula (tca now : Int) :
    computeDeferUntilUs tca now =
      max (now + minutesUs 10) (min (tca - hoursUs 12) (now + hoursUs 6)) ∧
    now + minutesUs 10 ≤ computeDeferUntilUs tca now ∧
    (usPerSecond ∣ now →
      now + minutesUs 10 ≤ isoDenotedUs (computeDeferUntilUs tca now)) ∧
    now + minutesUs 10 - usPerSecond
      < isoDenotedUs (computeDeferUntilUs tca now) := by
  refine ⟨?_, ?_, fun h => ?_, ?_⟩ <;>
  · simp only [computeDeferUntilUs, isoDenotedUs, minutesUs, hoursUs,
      usPerSecond, min_def, max_def] at *
    split_ifs <;> omega

/-- Witness for C9 (amended): at `now = 0`, `tca = 0` the divisibility
hypothesis holds and the denoted defer instant respects the floor. -/
theorem defer_until_formula_spot :
    (usPerSecond ∣ (0 : Int)) ∧
    (0 : Int) + minutesUs 10 ≤ isoDenotedUs (computeDeferUntilUs 0 0) :=
  ⟨by decide, (defer_until_formula 0 0).2.2.1 (by decide)⟩

/-- C9 (counterexample): with `now = 0.5s` (Python `datetime.now` carries
microseconds) and `tca = 0`, the gate defers with computed instant
`now + 10min = 600.5s`, whose ISO rendering denotes `600s`, which is less
than `now + 10min`.  So the instant denoted by `defer_until_utc` can be
below the ten-minute floor, contradicting the claim as stated. -/
theorem defer_until_denoted_counterexample :
    classifyTrendGate metricsSpk 0 500000 24 =
      { decision := .DEFER, reasonCode := "SPIKY_NOT_SUSTAINED"
        deferUntilUs := some 600500000 } ∧
    isoDenotedUs 600500000 < 500000 + minutesUs 10 := by
  constructor
  · unfold classifyTrendGate
    rw [if_neg (fun h => absurd h.1 (by decide)), if_neg (by decide),
      if_pos ⟨le_refl 0, by decide⟩]
    have : computeDeferUntilUs 0 500000 = 600500000 := by decide
    rw [this]
  · decide

/-- Decomposition of `buildSampleOffsets`: the base grid is anchored at
`-W` (`W` the half-window in seconds) with `⌊2W/c⌋ + 1` samples at cadence
`c`, and the `+W` endpoint is appended exactly when `c` does not divide
`2W`. -/
theorem buildSampleOffsets_eq (wm cs : Int) (hw : 0 ≤ wm) (hc : 1 ≤ cs) :
    buildSampleOffsets wm cs =
      (List.range ((2 * (60 * wm) / cs).toNat + 1)).map
        (fun (j : ℕ) => -(60 * wm) + (j : Int) * cs) ++
      (if cs ∣ 2 * (60 * wm) then [] else [60 * wm]) := by
  have hq0 : 0 ≤ 2 * (60 * wm) / cs := Int.ediv_nonneg (by omega) (by omega)
  simp only [buildSampleOffsets]
  rw [max_eq_right hw, max_eq_right hc]
  have hne : (List.range ((2 * (60 * wm) / cs).toNat + 1)).map
      (fun (j : ℕ) => -(60 * wm) + (j : Int) * cs) ≠ [] := by
    simp [List.range_succ]
  rw [if_neg hne]
  have hlast : ((List.range ((2 * (60 * wm) / cs).toNat + 1)).map
      (fun (j : ℕ) => -(60 * wm) + (j : Int) * cs)).getLast? =
      some (-(60 * wm) + (2 * (60 * wm) / cs) * cs) := by
    rw [List.range_succ, List.map_append, List.map_cons, List.map_nil,
      List.getLast?_concat, Int.toNat_of_nonneg hq0]
  by_cases hdvd : cs ∣ 2 * (60 * wm)
  · rw [if_pos hdvd, List.append_nil, if_pos]
    rw [hlast, Int.ediv_mul_cancel hdvd]
    congr 1
    omega
  · rw [if_neg hdvd, if_neg]
    rw [hlast]
    intro hcontra
    apply hdvd
    have hval : -(60 * wm) + (2 * (60 * wm) / cs) * cs = 60 * wm :=
      Option.some.inj hcontra
    have hdm := Int.ediv_add_emod (2 * (60 * wm)) cs
    have hcm : cs * (2 * (60 * wm) / cs) = 2 * (60 * wm) / cs * cs :=
      Int.mul_comm cs (2 * (60 * wm) / cs)
    exact Int.dvd_of_emod_eq_zero (by omega)

/-- C6 (amended): the sample grid is anchored at `-W`, not at TCA: its
offsets are exactly `-W + j·c` for `0 ≤ j·c ≤ 2W` together with the
endpoint `+W`, and `+W` is always the last sample.  The claimed symmetric
grid `{k·c : |k·c| ≤ W}` is obtained exactly when the cadence divides the
half-window; and when the cadence exceeds the full window the series is
the two samples `[TCA - W, TCA + W]`, not a single sample at TCA. -/
theorem sample_grid_amended (wm cs : Int) (hw : 0 ≤ wm) (hc : 1 ≤ cs) :
    (buildSampleOffsets wm cs).getLast? = some (60 * wm) ∧
    (∀ k : Int, k ∈ buildSampleOffsets wm cs ↔
      ((∃ j : ℕ, (j : Int) * cs ≤ 2 * (60 * wm) ∧ k = -(60 * wm) + j * cs) ∨
        k = 60 * wm)) ∧
    (cs ∣ 60 * wm → ∀ k : Int, k ∈ buildSampleOffsets wm cs ↔
      ∃ i : Int, k = i * cs ∧ -(60 * wm) ≤ i * cs ∧ i * cs ≤ 60 * wm) ∧
    (2 * (60 * wm) < cs ∧ 0 < wm →
      buildSampleOffsets wm cs = [-(60 * wm), 60 * wm]) := by
  have hcs : (0 : Int) < cs := by omega
  have hq0 : 0 ≤ 2 * (60 * wm) / cs := Int.ediv_nonneg (by omega) (by omega)
  have hWn : (0 : Int) ≤ 60 * wm := by omega
  rw [buildSampleOffsets_eq wm cs hw hc]
  have hmem : ∀ k : Int,
      (k ∈ (List.range ((2 * (60 * wm) / cs).toNat + 1)).map
          (fun (j : ℕ) => -(60 * wm) + (j : Int) * cs) ++
        (if cs ∣ 2 * (60 * wm) then [] else [60 * wm])) ↔
      ((∃ j : ℕ, (j : Int) * cs ≤ 2 * (60 * wm) ∧ k = -(60 * wm) + j * cs) ∨
        k = 60 * wm) := by
    intro k
    rw [List.mem_append, List.mem_map]
    constructor
    · rintro (⟨j, hj, rfl⟩ | hk)
      · left
        refine ⟨j, ?_, rfl⟩
        rw [List.mem_range] at hj
        have hj2 : (j : Int) ≤ 2 * (60 * wm) / cs := by
          have := Int.toNat_of_nonneg hq0
          omega
        exact (Int.le_ediv_iff_mul_le hcs).mp hj2
      · right
        by_cases hdvd : cs ∣ 2 * (60 * wm) <;> simp [hdvd] at hk
        exact hk
    · rintro (⟨j, hj, rfl⟩ | rfl)
      · left
        refine ⟨j, ?_, rfl⟩
        rw [List.mem_range]
        have hj2 : (j : Int) ≤ 2 * (60 * wm) / cs :=
          (Int.le_ediv_iff_mul_le hcs).mpr hj
        have := Int.toNat_of_nonneg hq0
        omega
      · by_cases hdvd : cs ∣ 2 * (60 * wm)
        · left
          refine ⟨(2 * (60 * wm) / cs).toNat, List.self_mem_range_succ _, ?_⟩
          rw [Int.toNat_of_nonneg hq0, Int.ediv_mul_cancel hdvd]
          omega
        · right
          simp [hdvd]
  refine ⟨?_, hmem, ?_, ?_⟩
  · by_cases hdvd : cs ∣ 2 * (60 * wm)
    · rw [if_pos hdvd, List.append_nil, List.range_succ, List.map_append,
        List.map_cons, List.map_nil, List.getLast?_concat,
        Int.toNat_of_nonneg hq0, Int.ediv_mul_cancel hdvd]
      congr 1
      omega
    · rw [if_neg hdvd, List.getLast?_concat]
  · intro hdvdW k
    rw [hmem k]
    have hmc : 60 * wm / cs * cs = 60 * wm := Int.ediv_mul_cancel hdvdW
    have hm0 : 0 ≤ 60 * wm / cs := Int.ediv_nonneg hWn (by omega)
    constructor
    · rintro (⟨j, hj, rfl⟩ | rfl)
      · refine ⟨(j : Int) - 60 * wm / cs, by rw [sub_mul]; omega, ?_, ?_⟩
        · have : (0 : Int) ≤ (j : Int) * cs := by positivity
          rw [sub_mul]
          omega
        · rw [sub_mul]
          omega
      · exact ⟨60 * wm / cs, by omega, by omega, by omega⟩
    · rintro ⟨i, rfl, hlo, hhi⟩
      have him : 0 ≤ i + 60 * wm / cs := by
        have h1 : 0 ≤ cs * (i + 60 * wm / cs) := by
          rw [Int.mul_comm, add_mul]
          omega
        exact nonneg_of_mul_nonneg_right h1 hcs
      left
      refine ⟨(i + 60 * wm / cs).toNat, ?_, ?_⟩
      · rw [Int.toNat_of_nonneg him, add_mul]
        omega
      · rw [Int.toNat_of_nonneg him, add_mul]
        omega
  · rintro ⟨hbig, hpos⟩
    have hq : 2 * (60 * wm) / cs = 0 := Int.ediv_eq_zero_of_lt (by omega) hbig
    have hndvd : ¬ cs ∣ 2 * (60 * wm) := by
      intro hdvd
      have := Int.le_of_dvd (by omega) hdvd
      omega
    rw [if_neg hndvd, hq]
    rw [show List.range ((0 : Int).toNat + 1) = [0] from rfl,
      List.map_cons, List.map_nil]
    simp


/-- C6 (counterexample): with a one-minute window (`W = 60 s`) and a
cadence of 120 s, larger than the window, the offset series is
`[-60, +60]` — two samples at the window edges — and not the single
sample `[0]` at TCA that the claim states; the grid is anchored at `-W`,
not symmetric about TCA. -/
theorem sample_grid_counterexample :
    (60 : Int) * 1 < 120 ∧
    buildSampleOffsets 1 120 = [-60, 60] ∧
    buildSampleOffsets 1 120 ≠ [0] ∧
    (0 : Int) ∉ buildSampleOffsets 1 90 := by
  refine ⟨by decide, by decide, by decide, by decide⟩

/-- Witness for C6 (amended): at the default configuration (30-minute
window, 60-second cadence, which divides the half-window) the endpoint is
the last sample and TCA itself is on the grid; with a 1-minute window and
120-second cadence the series is the two window edges. -/
theorem sample_grid_amended_spot :
    (buildSampleOffsets 30 60).getLast? = some 1800 ∧
    (0 : Int) ∈ buildSampleOffsets 30 60 ∧
    buildSampleOffsets 1 121 = [-60, 60] :=
  ⟨(sample_grid_amended 30 60 (by decide) (by decide)).1,
   ((sample_grid_amended 30 60 (by decide) (by decide)).2.2.1 (by decide)
       0).mpr ⟨0, by decide, by decide, by decide⟩,
   (sample_grid_amended 1 121 (by decide) (by decide)).2.2.2
     ⟨by decide, by decide⟩⟩

/-- C5: after canonicalization the smaller id is primary (strictly, for
the distinct ids delivered by the deduplicated catalog), the groups are
swapped together with the ids, and the event id is exactly
`EVT-{primary}-{secondary}-{tca}`; concretely, a candidate reported with
primary 99 and secondary 5 yields primary 5, secondary 99, its groups
swapped, and an event id starting `EVT-5-99-`. -/
theorem canonicalization_invariant :
    (∀ (p : CandidatePair) (tca : String), p.primaryId ≠ p.secondaryId →
      (canonicalizePair p).primaryId < (canonicalizePair p).secondaryId ∧
      (canonicalizePair p).primaryId = min p.primaryId p.secondaryId ∧
      (canonicalizePair p).secondaryId = max p.primaryId p.secondaryId ∧
      (p.secondaryId < p.primaryId →
        (canonicalizePair p).primaryGroup = p.secondaryGroup ∧
        (canonicalizePair p).secondaryGroup = p.primaryGroup) ∧
      (p.primaryId < p.secondaryId → canonicalizePair p = p) ∧
      eventId ((canonicalizePair p).primaryId) ((canonicalizePair p).secondaryId)
        tca =
        "EVT-" ++ toString ((canonicalizePair p).primaryId) ++ "-"
          ++ toString ((canonicalizePair p).secondaryId) ++ "-" ++ tca) ∧
    (∀ tca : String,
      canonicalizePair pair99 =
        { primaryId := 5, secondaryId := 99
          primaryGroup := "COSMOS-2251-DEBRIS", secondaryGroup := "ACTIVE" } ∧
      eventId ((canonicalizePair pair99).primaryId)
        ((canonicalizePair pair99).secondaryId) tca = "EVT-5-99-" ++ tca) := by
  constructor
  · intro p tca hne
    by_cases h : p.secondaryId < p.primaryId
    · refine ⟨?_, ?_, ?_, fun _ => ?_, fun hlt => absurd hlt (by omega), rfl⟩ <;>
        simp only [canonicalizePair, if_pos h]
      · exact h
      · omega
      · omega
      · exact ⟨trivial, trivial⟩
    · refine ⟨?_, ?_, ?_, fun hc => absurd hc h, fun _ => ?_, rfl⟩ <;>
        simp only [canonicalizePair, if_neg h]
      · omega
      · omega
      · omega
  · intro tca
    refine ⟨by decide, ?_⟩
    have h : ("EVT-" ++ toString ((canonicalizePair pair99).primaryId) ++ "-"
        ++ toString ((canonicalizePair pair99).secondaryId) ++ "-") =
        "EVT-5-99-" := by decide
    calc eventId ((canonicalizePair pair99).primaryId)
          ((canonicalizePair pair99).secondaryId) tca
        = ("EVT-" ++ toString ((canonicalizePair pair99).primaryId) ++ "-"
            ++ toString ((canonicalizePair pair99).secondaryId) ++ "-")
            ++ tca := by
          simp [eventId, String.append_assoc]
      _ = "EVT-5-99-" ++ tca := by rw [h]

/-- Witness for C5: the invariant applied to the Scenario F pair. -/
theorem canonicalization_invariant_spot :
    (canonicalizePair pair99).primaryId < (canonicalizePair pair99).secondaryId ∧
    (canonicalizePair pair99).primaryGroup = pair99.secondaryGroup :=
  ⟨(canonicalization_invariant.1 pair99 "2026-02-23T12:00:00Z" (by decide)).1,
   ((canonicalization_invariant.1 pair99 "2026-02-23T12:00:00Z"
       (by decide)).2.2.2.1 (by decide)).1⟩

/-- C8 (counterexample): the driver writes the maneuver-plans artifact
before the top-conjunctions artifact, so the claimed order
snapshot → top_conjunctions → maneuver_plans → manifest does not hold. -/
theorem artifact_order_counterexample :
    mainWriteOrder ≠
      [.cesiumSnapshot, .topConjunctions, .maneuverPlans, .manifest] ∧
    List.indexOf Artifact.maneuverPlans mainWriteOrder <
      List.indexOf Artifact.topConjunctions mainWriteOrder := by
  refine ⟨by decide, by decide⟩

/-- C8 (amended): the artifacts are written in the order snapshot →
maneuver_plans → top_conjunctions → manifest, and the manifest is the
last write (written exactly once). -/
theorem artifact_order_amended :
    mainWriteOrder =
      [.cesiumSnapshot, .maneuverPlans, .topConjunctions, .manifest] ∧
    mainWriteOrder.getLast? = some .manifest ∧
    mainWriteOrder.count .manifest = 1 ∧
    (artifactFileName .manifest = "artifacts_latest.json") := by
  refine ⟨rfl, by decide, by decide, rfl⟩


/-! ### Stable-sort lemmas -/

theorem mem_insertBy {α : Type} (lt : α → α → Prop) [DecidableRel lt]
    (a x : α) : ∀ l : List α, x ∈ insertBy lt a l ↔ x = a ∨ x ∈ l := by
  intro l
  induction l with
  | nil => simp [insertBy]
  | cons b t ih =>
    simp only [insertBy]
    split_ifs with h
    · rw [List.mem_cons, ih, List.mem_cons]
      tauto
    · rw [List.mem_cons, List.mem_cons]

theorem mem_sortBy {α : Type} (lt : α → α → Prop) [DecidableRel lt]
    (x : α) : ∀ l : List α, x ∈ sortBy lt l ↔ x ∈ l := by
  intro l
  induction l with
  | nil => simp [sortBy]
  | cons a t ih =>
    simp only [sortBy]
    rw [mem_insertBy, ih, List.mem_cons]

theorem insertBy_perm {α : Type} (lt : α → α → Prop) [DecidableRel lt]
    (a : α) : ∀ l : List α, List.Perm (insertBy lt a l) (a :: l) := by
  intro l
  induction l with
  | nil => exact List.Perm.refl _
  | cons b t ih =>
    simp only [insertBy]
    split_ifs with h
    · exact (ih.cons b).trans (List.Perm.swap a b t)
    · exact List.Perm.refl _

theorem sortBy_perm {α : Type} (lt : α → α → Prop) [DecidableRel lt] :
    ∀ l : List α, List.Perm (sortBy lt l) l := by
  intro l
  induction l with
  | nil => exact List.Perm.refl _
  | cons a t ih => exact (insertBy_perm lt a (sortBy lt t)).trans (ih.cons a)

theorem pairwise_insertBy {α : Type} (lt : α → α → Prop) [DecidableRel lt]
    (hasym : ∀ x y, lt x y → ¬ lt y x)
    (htrans : ∀ x y z, ¬ lt y x → ¬ lt z y → ¬ lt z x) (a : α) :
    ∀ l : List α, l.Pairwise (fun x y => ¬ lt y x) →
      (insertBy lt a l).Pairwise (fun x y => ¬ lt y x) := by
  intro l
  induction l with
  | nil => intro _; simp [insertBy]
  | cons b t ih =>
    intro hp
    obtain ⟨hb, ht⟩ := List.pairwise_cons.mp hp
    simp only [insertBy]
    split_ifs with h
    · rw [List.pairwise_cons]
      refine ⟨fun y hy => ?_, ih ht⟩
      rcases (mem_insertBy lt a y t).mp hy with rfl | hy
      · exact hasym b y h
      · exact hb y hy
    · rw [List.pairwise_cons]
      refine ⟨fun y hy => ?_, hp⟩
      rcases List.mem_cons.mp hy with rfl | hy
      · exact h
      · exact htrans a b y h (hb y hy)

theorem pairwise_sortBy {α : Type} (lt : α → α → Prop) [DecidableRel lt]
    (hasym : ∀ x y, lt x y → ¬ lt y x)
    (htrans : ∀ x y z, ¬ lt y x → ¬ lt z y → ¬ lt z x) :
    ∀ l : List α, (sortBy lt l).Pairwise (fun x y => ¬ lt y x) := by
  intro l
  induction l with
  | nil => simp [sortBy]
  | cons a t ih => exact pairwise_insertBy lt hasym htrans a _ ih

/-! ### Key-order facts for the two program sorts -/

theorem strLt_trans {a b c : String} : strLt a b → strLt b c → strLt a c :=
  fun h1 h2 => lt_trans h1 h2

theorem strLt_asymm (a b : String) : strLt a b → ¬ strLt b a :=
  fun h1 h2 => lt_asymm h1 h2

theorem strLt_antisymm {a b : String} :
    ¬ strLt a b → ¬ strLt b a → a = b :=
  fun h1 h2 => String.ext (le_antisymm (le_of_not_lt h2) (le_of_not_lt h1))

/-- Negation of the candidate order is the lexicographic less-or-equal. -/
theorem not_candLt_iff (a b : PlanCandidate) : ¬ candLt b a ↔
    (a.deltaVmps < b.deltaVmps ∨ (a.deltaVmps = b.deltaVmps ∧
      (a.leadTimeS < b.leadTimeS ∨ (a.leadTimeS = b.leadTimeS ∧
        ¬ strLt b.direction a.direction)))) := by
  unfold candLt
  constructor
  · intro h
    rcases lt_trichotomy a.deltaVmps b.deltaVmps with hd | hd | hd
    · exact Or.inl hd
    · refine Or.inr ⟨hd, ?_⟩
      rcases lt_trichotomy a.leadTimeS b.leadTimeS with hl | hl | hl
      · exact Or.inl hl
      · exact Or.inr ⟨hl, fun hs =>
          h (Or.inr ⟨hd.symm, Or.inr ⟨hl.symm, hs⟩⟩)⟩
      · exact absurd (Or.inr ⟨hd.symm, Or.inl hl⟩) h
    · exact absurd (Or.inl hd) h
  · intro h hlt
    rcases h with hd | ⟨hd, hl⟩
    · rcases hlt with h2 | ⟨e2, _⟩
      · exact lt_irrefl _ (hd.trans h2)
      · rw [e2] at hd
        exact lt_irrefl _ hd
    · rcases hlt with h2 | ⟨e2, hl2⟩
      · rw [hd] at h2
        exact lt_irrefl _ h2
      · rcases hl with hlead | ⟨hlead, hdir⟩
        · rcases hl2 with h3 | ⟨e3, _⟩
          · exact lt_irrefl _ (hlead.trans h3)
          · rw [e3] at hlead
            exact lt_irrefl _ hlead
        · rcases hl2 with h3 | ⟨e3, hdir2⟩
          · rw [hlead] at h3
            exact lt_irrefl _ h3
          · exact hdir hdir2

theorem candLt_asymm (a b : PlanCandidate) : candLt a b → ¬ candLt b a := by
  intro h
  rw [not_candLt_iff]
  unfold candLt at h
  rcases h with h | ⟨e, h | ⟨f, g⟩⟩
  · exact Or.inl h
  · exact Or.inr ⟨e, Or.inl h⟩
  · exact Or.inr ⟨e, Or.inr ⟨f, strLt_asymm _ _ g⟩⟩

theorem candLe_trans (a b c : PlanCandidate) :
    ¬ candLt b a → ¬ candLt c b → ¬ candLt c a := by
  rw [not_candLt_iff, not_candLt_iff, not_candLt_iff]
  intro h1 h2
  rcases h1 with hd1 | ⟨hd1, hl1⟩ <;> rcases h2 with hd2 | ⟨hd2, hl2⟩
  · exact Or.inl (hd1.trans hd2)
  · exact Or.inl (by rw [← hd2]; exact hd1)
  · exact Or.inl (by rw [hd1]; exact hd2)
  · refine Or.inr ⟨hd1.trans hd2, ?_⟩
    rcases hl1 with hl1 | ⟨hl1, hs1⟩ <;> rcases hl2 with hl2 | ⟨hl2, hs2⟩
    · exact Or.inl (hl1.trans hl2)
    · exact Or.inl (by rw [← hl2]; exact hl1)
    · exact Or.inl (by rw [hl1]; exact hl2)
    · refine Or.inr ⟨hl1.trans hl2, ?_⟩
      intro hs
      by_cases hbc : strLt b.direction c.direction
      · exact hs1 (strLt_trans hbc hs)
      · have hbceq : b.direction = c.direction := strLt_antisymm hbc hs2
        rw [← hbceq] at hs
        exact hs1 hs

theorem eventLt_iff_key (a b : RankedEvent) :
    eventLt a b ↔ eventKey a < eventKey b := by
  unfold eventLt eventKey
  rw [Prod.Lex.lt_iff]
  simp only [neg_lt_neg_iff, neg_inj]

theorem eventLt_asymm (a b : RankedEvent) : eventLt a b → ¬ eventLt b a := by
  rw [eventLt_iff_key, eventLt_iff_key]
  exact fun h => lt_asymm h

theorem eventLe_trans (a b c : RankedEvent) :
    ¬ eventLt b a → ¬ eventLt c b → ¬ eventLt c a := by
  rw [eventLt_iff_key, eventLt_iff_key, eventLt_iff_key, not_lt, not_lt,
    not_lt]
  exact fun h1 h2 => le_trans h1 h2

theorem maxQ0_eq (x : ℚ) : maxQ0 x = max 0 x := by
  unfold maxQ0
  rcases le_or_lt x 0 with h | h
  · rw [if_pos h, max_eq_left h]
  · rw [if_neg (not_le.mpr h), max_eq_right h.le]

/-- C3: the planner computes the required delta-v of every candidate as
`max(0, target - miss) / (lead_time · gain)`, a candidate is feasible iff
that value is defined and at most the cap, and the returned plan is the
head of the feasible candidates sorted by (delta-v, lead time, direction)
— hence no feasible candidate is strictly smaller in that key order.  For
the Scenario B event (TCA 2026-02-23T12:00:00Z, miss 200 m) under the
default policy the plan is feasible in direction `+T` with delta-v
`800/86400 = 1/108 m/s` and burn time 2026-02-22T12:00:00Z. -/
theorem maneuver_planner_min_delta_v :
    (∀ gapM leadTimeS gain : ℚ, 0 < leadTimeS → 0 < gain →
      requiredDeltaV gapM leadTimeS gain =
        some (max 0 gapM / (leadTimeS * gain))) ∧
    (∀ (tcaS missM : ℚ) (policy : PlannerPolicy)
        (c : PlanCandidate), c ∈ planCandidates tcaS missM policy →
      ∃ offsetH ∈ policy.candidate_offsets_h, ∃ dg ∈ directionGains,
        c.direction = dg.1 ∧ c.gain = dg.2 ∧
        c.burnTimeS = tcaS - offsetH * 3600 ∧
        c.leadTimeS = offsetH * 3600 ∧
        (requiredDeltaV (max 0 (max 0 policy.miss_distance_target_m - missM))
            c.leadTimeS c.gain = none →
          c.feasible = false) ∧
        (∀ v, requiredDeltaV (max 0 (max 0 policy.miss_distance_target_m
            - missM)) c.leadTimeS c.gain = some v →
          c.deltaVmps = v ∧
          (c.feasible = true ↔ v ≤ max 0 policy.max_delta_v_mps))) ∧
    (∀ (tcaS missM : ℚ) (policy : PlannerPolicy) sel rest,
      sortBy candLt ((planCandidates tcaS missM policy).filter
          (·.feasible)) = sel :: rest →
      (planMinDeltaV tcaS missM policy).feasibility = "feasible" ∧
      (planMinDeltaV tcaS missM policy).deltaVmps = some sel.deltaVmps ∧
      (planMinDeltaV tcaS missM policy).direction = some sel.direction ∧
      (planMinDeltaV tcaS missM policy).burnTimeS = some sel.burnTimeS ∧
      ∀ c ∈ planCandidates tcaS missM policy, c.feasible = true →
        ¬ candLt c sel) ∧
    planMinDeltaV ((epochS 2026 2 23 12 0 0 : Int) : ℚ) 200 policyB =
      { burnTimeS := some ((epochS 2026 2 22 12 0 0 : Int) : ℚ)
        frame := "RTN", direction := some "+T"
        deltaVmps := some (mkRat 1 108), expectedMissM := 1000
        feasibility := "feasible", earlyVsLate := some (mkRat 1 48)
        currentMissM := 200, targetMissM := 1000
        lateBurnTimeS := ((epochS 2026 2 23 11 30 0 : Int) : ℚ)
        lateDirection := "+T", lateDeltaVmps := mkRat 4 9 } := by
  refine ⟨?_, ?_, ?_, by decide⟩
  · intro gapM leadTimeS gain hl hg
    unfold requiredDeltaV
    rw [if_neg (by push_neg; exact ⟨hl, hg⟩)]
    rcases le_or_lt gapM 0 with h | h
    · rw [if_pos h, max_eq_left h, zero_div]
    · rw [if_neg (not_le.mpr h), max_eq_right h.le, qdiv_eq, qmul_eq]
  · intro tcaS missM policy c hc
    simp only [planCandidates, List.mem_flatMap, List.mem_map] at hc
    obtain ⟨offsetH, hoff, dg, hdg, rfl⟩ := hc
    have hgap : max 0 (max 0 policy.miss_distance_target_m - missM) =
        maxQ0 (qsub (maxQ0 policy.miss_distance_target_m) missM) := by
      rw [maxQ0_eq, maxQ0_eq, qsub_eq]
    refine ⟨offsetH, (mem_sortBy qlt offsetH _).mp hoff, dg, hdg,
      rfl, rfl, ?_, ?_, ?_, ?_⟩
    · show qsub tcaS (qmul offsetH 3600) = _
      rw [qsub_eq, qmul_eq]
    · show qsub tcaS (qsub tcaS (qmul offsetH 3600)) = _
      rw [qsub_eq, qsub_eq, qmul_eq]
      ring
    · intro hnone
      rw [hgap] at hnone
      dsimp only at hnone ⊢
      rw [hnone]
    · intro v hv
      rw [hgap] at hv
      dsimp only at hv ⊢
      rw [hv]
      refine ⟨rfl, ?_⟩
      rw [maxQ0_eq]
      exact decide_eq_true_iff
  · intro tcaS missM policy sel rest hsort
    refine ⟨?_, ?_, ?_, ?_, ?_⟩ <;>
      try simp only [planMinDeltaV, hsort]
    intro c hc hcf
    have hcf2 : c ∈ (planCandidates tcaS missM policy).filter
        (·.feasible) :=
      List.mem_filter.mpr ⟨hc, by rw [hcf]⟩
    have hmem2 := (mem_sortBy candLt c _).mpr hcf2
    rw [hsort] at hmem2
    rcases List.mem_cons.mp hmem2 with rfl | hmem3
    · exact fun hlt => candLt_asymm c c hlt hlt
    · have hp := pairwise_sortBy candLt candLt_asymm candLe_trans
        ((planCandidates tcaS missM policy).filter (·.feasible))
      rw [hsort] at hp
      exact (List.pairwise_cons.mp hp).1 c hmem3

/-- Witness for C3: the delta-v formula, the candidate characterization
and the head-of-sorted selection, applied at TCA 0, miss 200 m under the
single-offset policy `policyW`. -/
theorem maneuver_planner_min_delta_v_spot :
    requiredDeltaV 800 86400 1 = some (max 0 (800 : ℚ) / (86400 * 1)) ∧
    (∃ offsetH ∈ policyW.candidate_offsets_h, ∃ dg ∈ directionGains,
      selW.direction = dg.1 ∧ selW.gain = dg.2 ∧
      selW.burnTimeS = 0 - offsetH * 3600 ∧
      selW.leadTimeS = offsetH * 3600 ∧
      (requiredDeltaV (max 0 (max 0 policyW.miss_distance_target_m - 200))
          selW.leadTimeS selW.gain = none → selW.feasible = false) ∧
      (∀ v, requiredDeltaV
          (max 0 (max 0 policyW.miss_distance_target_m - 200))
          selW.leadTimeS selW.gain = some v →
        selW.deltaVmps = v ∧
        (selW.feasible = true ↔ v ≤ max 0 policyW.max_delta_v_mps))) ∧
    ((planMinDeltaV 0 200 policyW).feasibility = "feasible" ∧
      (planMinDeltaV 0 200 policyW).deltaVmps = some selW.deltaVmps ∧
      (planMinDeltaV 0 200 policyW).direction = some selW.direction ∧
      (planMinDeltaV 0 200 policyW).burnTimeS = some selW.burnTimeS ∧
      ∀ c ∈ planCandidates 0 200 policyW, c.feasible = true →
        ¬ candLt c selW) :=
  ⟨maneuver_planner_min_delta_v.1 800 86400 1 (by decide) (by decide),
   maneuver_planner_min_delta_v.2.1 0 200 policyW selW (by decide),
   maneuver_planner_min_delta_v.2.2.1 0 200 policyW selW restW (by decide)⟩

/-- C7: when no candidate meets the delta-v cap the planner returns an
infeasible plan: null burn time, direction and delta-v, expected miss
equal to the current miss, and the late-burn baseline still reported; for
the Scenario C event (miss 10 m, target 5000 m, cap 1e-4 m/s, single 2 h
offset) the output is infeasible with null delta-v and expected miss
10.0. -/
theorem maneuver_planner_infeasible :
    (∀ (tcaS missM : ℚ) (policy : PlannerPolicy),
      (∀ c ∈ planCandidates tcaS missM policy, c.feasible = false) →
      (planMinDeltaV tcaS missM policy).feasibility = "infeasible" ∧
      (planMinDeltaV tcaS missM policy).burnTimeS = none ∧
      (planMinDeltaV tcaS missM policy).direction = none ∧
      (planMinDeltaV tcaS missM policy).deltaVmps = none ∧
      (planMinDeltaV tcaS missM policy).earlyVsLate = none ∧
      (planMinDeltaV tcaS missM policy).expectedMissM = missM ∧
      (planMinDeltaV tcaS missM policy).lateDirection = "+T" ∧
      (planMinDeltaV tcaS missM policy).lateBurnTimeS =
        tcaS - policy.late_burn_minutes * 60) ∧
    planMinDeltaV 0 10 policyC =
      { burnTimeS := none, frame := "RTN", direction := none
        deltaVmps := none, expectedMissM := 10
        feasibility := "infeasible", earlyVsLate := none
        currentMissM := 10, targetMissM := 5000
        lateBurnTimeS := -1800, lateDirection := "+T"
        lateDeltaVmps := mkRat 499 180 } := by
  refine ⟨?_, by decide⟩
  intro tcaS missM policy h
  have hfe : (planCandidates tcaS missM policy).filter (·.feasible) = [] := by
    rw [List.filter_eq_nil_iff]
    intro c hc
    rw [h c hc]
    simp
  simp only [planMinDeltaV, hfe, sortBy]
  refine ⟨trivial, trivial, trivial, trivial, trivial, trivial, trivial, ?_⟩
  rw [qsub_eq, qmul_eq]

/-- Witness for C7: the infeasible-plan shape applied at the Scenario C
inputs. -/
theorem maneuver_planner_infeasible_spot :
    (planMinDeltaV 0 10 policyC).feasibility = "infeasible" ∧
    (planMinDeltaV 0 10 policyC).deltaVmps = none ∧
    (planMinDeltaV 0 10 policyC).expectedMissM = 10 :=
  ⟨(maneuver_planner_infeasible.1 0 10 policyC (by decide)).1,
   (maneuver_planner_infeasible.1 0 10 policyC (by decide)).2.2.2.1,
   (maneuver_planner_infeasible.1 0 10 policyC (by decide)).2.2.2.2.2.1⟩

/-- C4 (counterexample): two events with equal risk score and equal miss
distance keep their insertion order under the ranking sort — the event
with the lexicographically larger id stays first — so the tie is not
broken by `event_id` as claimed. -/
theorem ranking_tiebreak_counterexample :
    sortEventsByRisk [eventHi, eventLo] = [eventHi, eventLo] ∧
    eventHi.risk_score = eventLo.risk_score ∧
    eventHi.miss_distance_m = eventLo.miss_distance_m ∧
    strLt eventLo.event_id eventHi.event_id ∧
    eventHi ≠ eventLo := by
  refine ⟨by decide, by decide, by decide, by decide, by decide⟩

/-- C4 (amended): the emitted list is the stable sort of the scored
events by `(-risk_score, miss_distance_m)`: a permutation of the input
whose adjacent pairs have strictly decreasing risk, or equal risk and
non-decreasing miss; full-key ties keep insertion order (there is no
`event_id` tie-break). -/
theorem ranking_order_amended (l : List RankedEvent) :
    List.Perm (sortEventsByRisk l) l ∧
    (sortEventsByRisk l).Pairwise (fun a b =>
      b.risk_score < a.risk_score ∨
        (a.risk_score = b.risk_score ∧
          a.miss_distance_m ≤ b.miss_distance_m)) := by
  constructor
  · exact sortBy_perm eventLt l
  · have hp := pairwise_sortBy eventLt eventLt_asymm eventLe_trans l
    refine hp.imp ?_
    intro a b hnot
    unfold eventLt at hnot
    push_neg at hnot
    obtain ⟨h1, h2⟩ := hnot
    rcases lt_or_eq_of_le h1 with h | h
    · exact Or.inl h
    · exact Or.inr ⟨h.symm, h2 h⟩

/-- `maxQ0` is non-negative. -/
theorem maxQ0_nonneg (x : ℚ) : 0 ≤ maxQ0 x := by
  unfold maxQ0
  split
  next h => exact le_refl 0
  next h => exact le_of_lt (lt_of_not_le h)

/-- C10 (counterexample): for an event whose `pc_assumed` key is absent
but whose `p_collision` is 0.5, the fallback sample substituted for an
empty SGP4 series carries pc 0.5, not 0.0 — the fallback is
`pc_assumed`, else `p_collision`, else 0.0, not "`pc_assumed` (0.0 when
absent)". -/
theorem trend_fallback_counterexample :
    evNoPc.pc_assumed = none ∧
    (evaluateTrendGate [] evNoPc 0 30 60 (mkRat 1 100000) (mkRat 1 1000)
        24).pc_series =
      [{ t_us := 0, miss_m := 1000, pc := mkRat 1 2 }] ∧
    fallbackPc evNoPc = mkRat 1 2 ∧ (mkRat 1 2 : ℚ) ≠ 0 := by
  refine ⟨rfl, rfl, rfl, by decide⟩

/-- C10 (amended): `evaluate_trend_gate` always returns a non-empty
`pc_series`; when the SGP4 stage returns the empty series the output
series is the single fallback sample at the event TCA with the event
miss distance and fallback pc (`pc_assumed`, else `p_collision`, else
0.0), and the gate metrics are computed from that one-sample series
(peak is the clamped fallback pc, slope 0, stability 1 when the peak is
positive, sample count 1); a non-empty SGP4 series is passed through
unchanged. -/
theorem trend_fallback_amended :
    (∀ (built : List TrendSample) (ev : EventRec) (now_us wm cs : Int)
        (thr crit dh : ℚ),
      (evaluateTrendGate built ev now_us wm cs thr crit dh).pc_series ≠
        []) ∧
    (∀ (ev : EventRec) (now_us wm cs : Int) (thr crit dh : ℚ),
      (evaluateTrendGate [] ev now_us wm cs thr crit dh).pc_series =
        [{ t_us := ev.tca_us, miss_m := fallbackMiss ev
           pc := fallbackPc ev }]) ∧
    (∀ (built : List TrendSample) (ev : EventRec) (now_us wm cs : Int)
        (thr crit dh : ℚ), built ≠ [] →
      (evaluateTrendGate built ev now_us wm cs thr crit dh).pc_series =
        built) ∧
    (∀ (ev : EventRec) (v : ℚ), ev.pc_assumed = some v →
      fallbackPc ev = v) ∧
    (∀ ev : EventRec, ev.pc_assumed = none → ev.p_collision = none →
      fallbackPc ev = 0) ∧
    (∀ (ev : EventRec) (now_us wm cs : Int) (thr crit dh : ℚ),
      (evaluateTrendGate [] ev now_us wm cs thr crit dh).metrics =
        { pc_peak := maxQ0 (fallbackPc ev), pc_slope := 0
          pc_stability := if 0 < maxQ0 (fallbackPc ev) then 1 else 0
          window_minutes := wm, cadence_seconds := cs, sample_count := 1
          time_to_tca_hours := mkRat (ev.tca_us - now_us) 3600000000
          threshold := thr, critical_override := crit }) := by
  refine ⟨?_, ?_, ?_, ?_, ?_, ?_⟩
  · intro built ev now_us wm cs thr crit dh
    simp only [evaluateTrendGate]
    by_cases h : built = []
    · simp [h]
    · simp [h]
  · intro ev now_us wm cs thr crit dh
    rfl
  · intro built ev now_us wm cs thr crit dh h
    simp only [evaluateTrendGate, if_neg h]
  · intro ev v h
    simp only [fallbackPc, h]
  · intro ev h1 h2
    simp only [fallbackPc, h1, h2]
  · intro ev now_us wm cs thr crit dh
    have h0 := maxQ0_nonneg (fallbackPc ev)
    have hcut : qmul (mkRat 1 2) (maxQ0 (fallbackPc ev)) ≤
        maxQ0 (fallbackPc ev) := by
      rw [qmul_eq]
      have h12 : (mkRat 1 2 : ℚ) = 1 / 2 := by
        rw [Rat.mkRat_eq_div]; norm_num
      rw [h12]; linarith
    simp only [evaluateTrendGate, computeTrendMetrics, seriesX]
    simp [List.countP_cons, hcut, max_eq_left h0, sub_self]

/-- Each series term of `besselI0` is non-negative. -/
theorem besselI0_term_nonneg (y : ℝ) (k : ℕ) :
    0 ≤ (y ^ 2 / 4) ^ k / ((k.factorial : ℝ)) ^ 2 := by positivity

/-- The `besselI0` series is summable. -/
theorem summable_besselI0 (y : ℝ) :
    Summable (fun k : ℕ => (y ^ 2 / 4) ^ k / ((k.factorial : ℝ)) ^ 2) := by
  refine Summable.of_nonneg_of_le (besselI0_term_nonneg y) (fun k => ?_)
    (Real.summable_pow_div_factorial (y ^ 2 / 4))
  have h1 : (1 : ℝ) ≤ (k.factorial : ℝ) := by
    exact_mod_cast Nat.one_le_iff_ne_zero.mpr (Nat.factorial_ne_zero k)
  have h2 : (k.factorial : ℝ) ≤ ((k.factorial : ℝ)) ^ 2 := by nlinarith
  have h3 : (0 : ℝ) < (k.factorial : ℝ) := by linarith
  have h4 : (0 : ℝ) ≤ (y ^ 2 / 4) ^ k := by positivity
  exact div_le_div_of_nonneg_left h4 h3 h2

/-- `I0` is non-negative everywhere. -/
theorem besselI0_nonneg (y : ℝ) : 0 ≤ besselI0 y :=
  tsum_nonneg (besselI0_term_nonneg y)

/-- Partial sums bound `I0` from below. -/
theorem besselI0_sum_le (y : ℝ) (N : ℕ) :
    ∑ k ∈ Finset.range N, (y ^ 2 / 4) ^ k / ((k.factorial : ℝ)) ^ 2 ≤
      besselI0 y :=
  sum_le_tsum (Finset.range N) (fun k _ => besselI0_term_nonneg y k)
    (summable_besselI0 y)

/-- `I0(0) = 1`. -/
theorem besselI0_zero : besselI0 0 = 1 := by
  unfold besselI0
  rw [tsum_eq_single 0 ?_]
  · norm_num
  · intro k hk
    have h : ((0:ℝ) ^ 2 / 4) = 0 := by norm_num
    rw [h, zero_pow hk, zero_div]

/-- The integrand is non-negative at non-negative radii. -/
theorem pcIntegrand_nonneg {r scale ρ : ℝ} (hs : 0 < scale) (hρ : 0 ≤ ρ) :
    0 ≤ pcIntegrand r scale ρ := by
  unfold pcIntegrand
  exact mul_nonneg
    (mul_nonneg (div_nonneg hρ hs.le) (Real.exp_nonneg _))
    (besselI0_nonneg _)

/-- Node spacing of the 400-node grid on `[0, 1000]`. -/
theorem pcNode_sub (i : ℕ) :
    pcNode 1000 400 (i + 1) - pcNode 1000 400 i = 1000 / 399 := by
  unfold pcNode
  push_cast
  ring

/-- Nodes are non-negative. -/
theorem pcNode_nonneg (i : ℕ) : 0 ≤ pcNode 1000 400 i := by
  unfold pcNode
  have h : ((400:ℕ):ℝ) - 1 = 399 := by norm_num
  rw [h]
  positivity

/-- Trapezoid sums with non-negative values are at most the node sum
scaled by the (common, non-negative) spacing. -/
theorem trapz_sum_le {g : ℕ → ℝ} {c : ℝ} (hc : 0 ≤ c)
    (hg : ∀ i, 0 ≤ g i) (n : ℕ) :
    ∑ i ∈ Finset.range n, c * (g i + g (i + 1)) / 2 ≤
      c * ∑ i ∈ Finset.range (n + 1), g i := by
  have h1 : ∑ i ∈ Finset.range n, g i ≤ ∑ i ∈ Finset.range (n + 1), g i := by
    rw [Finset.sum_range_succ]
    linarith [hg n]
  have h2 : ∑ i ∈ Finset.range n, g (i + 1) ≤
      ∑ i ∈ Finset.range (n + 1), g i := by
    rw [Finset.sum_range_succ']
    linarith [hg 0]
  have h3 : ∑ i ∈ Finset.range n, c * (g i + g (i + 1)) / 2 =
      c / 2 * ((∑ i ∈ Finset.range n, g i) +
        ∑ i ∈ Finset.range n, g (i + 1)) := by
    rw [← Finset.sum_add_distrib, Finset.mul_sum]
    exact Finset.sum_congr rfl (fun i _ => by ring)
  rw [h3]
  have h4 := mul_le_mul_of_nonneg_left (add_le_add h1 h2)
    (by linarith : (0:ℝ) ≤ c / 2)
  calc c / 2 * ((∑ i ∈ Finset.range n, g i) +
        ∑ i ∈ Finset.range n, g (i + 1)) ≤
      c / 2 * ((∑ i ∈ Finset.range (n + 1), g i) +
        ∑ i ∈ Finset.range (n + 1), g i) := h4
    _ = c * ∑ i ∈ Finset.range (n + 1), g i := by ring

/-- Geometric tail bound for ratio `2/21`. -/
theorem geom_range_le (n : ℕ) :
    ∑ i ∈ Finset.range n, ((2:ℝ)/21) ^ i ≤ 21 / 19 := by
  rw [geom_sum_eq (by norm_num : ((2:ℝ)/21) ≠ 1)]
  have h := pow_nonneg (by norm_num : (0:ℝ) ≤ 2/21) n
  rw [div_le_iff_of_neg (by norm_num : ((2:ℝ)/21) - 1 < 0)]
  nlinarith

/-- `exp 700` is below the float64 ceiling. -/
theorem exp_700_le_maxFloat64 : Real.exp 700 ≤ maxFloat64 := by
  have h1 : Real.exp 700 = Real.exp 1 ^ 700 := by
    rw [← Real.exp_nat_mul]
    norm_num
  rw [h1]
  calc Real.exp 1 ^ 700 ≤ (2.7182818286 : ℝ) ^ 700 :=
      pow_le_pow_left₀ (Real.exp_nonneg 1) (le_of_lt Real.exp_one_lt_d9) 700
    _ ≤ maxFloat64 := by norm_num [maxFloat64]

/-- At miss `7/10`, unit sigma, radius 1000 and 400 nodes the largest
`i0` argument is exactly 700, so no node overflows and the isfinite
guard does not fire. -/
theorem pcNonFinite_spot_false : ¬ pcNonFinite (7/10) 1 1000 400 := by
  unfold pcNonFinite
  push_neg
  intro i hi
  refine le_trans ?_ exp_700_le_maxFloat64
  rw [Real.exp_le_exp]
  unfold pcNode
  have h399 : ((400:ℕ):ℝ) - 1 = 399 := by norm_num
  rw [h399]
  have hi399 : (i:ℝ) ≤ 399 := by
    rw [Finset.mem_range] at hi
    exact_mod_cast Nat.lt_succ_iff.mp hi
  have harg : 1000 * (i:ℝ) / 399 * (7/10) / 1 = 700 * i / 399 := by ring
  rw [harg, div_le_iff₀ (by norm_num : (0:ℝ) < 399)]
  linarith

set_option maxHeartbeats 2000000 in
/-- The certified comparison behind the non-monotone quadrature: at the
node-1 values for miss `7/10` (exp argument `E = ((1000/399)² +
(7/10)²)/2`, `i0` argument `100/57`),
`(7/20)·exp E ≤ (1000/399)²·I0(100/57)`. -/
theorem exp_le_mul_besselI0 :
    (7/20 : ℝ) * Real.exp (107800849/31840200) ≤
      (1000000/159201 : ℝ) * besselI0 (100/57) := by
  have ht0 : (0:ℝ) ≤ 107800849/127360800 := by norm_num
  have ht1 : (107800849:ℝ)/127360800 ≤ 1 := by norm_num
  have hb := Real.exp_bound' ht0 ht1 (by norm_num : 0 < 8)
  have hp : Real.exp (107800849/31840200) =
      Real.exp ((107800849:ℝ)/127360800) ^ 4 := by
    rw [← Real.exp_nat_mul]
    norm_num
  rw [hp]
  have hS := besselI0_sum_le (100/57) 6
  have hmul := mul_le_mul_of_nonneg_left hS
    (by norm_num : (0:ℝ) ≤ 1000000/159201)
  have hpow : Real.exp ((107800849:ℝ)/127360800) ^ 4 ≤
      ((∑ m ∈ Finset.range 8,
          ((107800849:ℝ)/127360800) ^ m / m.factorial) +
        ((107800849:ℝ)/127360800) ^ 8 * (8 + 1) /
          ((8:ℕ).factorial * 8)) ^ 4 :=
    pow_le_pow_left₀ (Real.exp_nonneg _) hb 4
  have hmono := mul_le_mul_of_nonneg_left hpow
    (by norm_num : (0:ℝ) ≤ 7/20)
  refine hmono.trans (le_trans ?_ hmul)
  norm_num [Finset.sum_range_succ, Finset.sum_range_zero, Nat.factorial]

/-- The trapezoid value at miss `7/10` is at least `7/20`: the node-1
term alone contributes that much. -/
theorem pcTrapz_A : (7/20 : ℝ) ≤ pcTrapz (7/10) 1 1000 400 := by
  have hr399 : (400 - 1 : ℕ) = 399 := rfl
  have hnode1 : pcNode 1000 400 1 = 1000/399 := by
    unfold pcNode
    norm_num
  have hf1 : (7/20 : ℝ) ≤
      (1000/399) * pcIntegrand (7/10) 1 (pcNode 1000 400 1) := by
    rw [hnode1]
    unfold pcIntegrand
    have harg1 : ((1000:ℝ)/399) * (7/10) / 1 = 100/57 := by norm_num
    have harg2 : (-(((1000:ℝ)/399) * (1000/399) +
        (7/10) * (7/10)) / (2 * 1)) = -(107800849/31840200) := by
      norm_num
    rw [harg1, harg2, Real.exp_neg]
    have hE : (0:ℝ) < Real.exp (107800849/31840200) := Real.exp_pos _
    have h1 := mul_le_mul_of_nonneg_right exp_le_mul_besselI0
      (inv_nonneg.mpr hE.le)
    calc (7/20 : ℝ) = (7/20) * Real.exp (107800849/31840200) *
          (Real.exp (107800849/31840200))⁻¹ := by
          rw [mul_assoc, mul_inv_cancel₀ hE.ne.symm, mul_one]
      _ ≤ (1000000/159201 : ℝ) * besselI0 (100/57) *
          (Real.exp (107800849/31840200))⁻¹ := h1
      _ = 1000/399 * (1000/399 / 1 *
          (Real.exp (107800849/31840200))⁻¹ * besselI0 (100/57)) := by
          ring
  have hterm : ∀ i : ℕ,
      0 ≤ (pcNode 1000 400 (i + 1) - pcNode 1000 400 i) *
        (pcIntegrand (7/10) 1 (pcNode 1000 400 i) +
          pcIntegrand (7/10) 1 (pcNode 1000 400 (i + 1))) / 2 := by
    intro i
    rw [pcNode_sub]
    have ha := pcIntegrand_nonneg (r := 7/10) one_pos (pcNode_nonneg i)
    have hb := pcIntegrand_nonneg (r := 7/10) one_pos
      (pcNode_nonneg (i + 1))
    positivity
  unfold pcTrapz
  rw [hr399]
  have hsubset : ({0, 1} : Finset ℕ) ⊆ Finset.range 399 := by decide
  have hdom := Finset.sum_le_sum_of_subset_of_nonneg hsubset
    (fun i _ _ => hterm i)
  rw [Finset.sum_pair (by norm_num : (0:ℕ) ≠ 1)] at hdom
  refine le_trans ?_ hdom
  rw [pcNode_sub, pcNode_sub]
  have h0 := pcIntegrand_nonneg (r := 7/10) one_pos (pcNode_nonneg 0)
  have h2 := pcIntegrand_nonneg (r := 7/10) one_pos (pcNode_nonneg 2)
  have h02 := mul_nonneg (by norm_num : (0:ℝ) ≤ 1000/399/2)
    (add_nonneg h0 h2)
  nlinarith [hf1]

/-- `exp(−(1000/399)²/2) ≤ 1/21`. -/
theorem exp_half_le : Real.exp (-(500000/159201)) ≤ 1/21 := by
  have h1 : ((334027:ℝ)/318402) ≤ Real.exp ((15625:ℝ)/318402) := by
    have := Real.add_one_le_exp ((15625:ℝ)/318402)
    linarith
  have h3 : Real.exp ((500000:ℝ)/159201) =
      Real.exp ((15625:ℝ)/318402) ^ 64 := by
    rw [← Real.exp_nat_mul]
    norm_num
  have h2 : ((334027:ℝ)/318402) ^ 64 ≤ Real.exp ((500000:ℝ)/159201) := by
    rw [h3]
    exact pow_le_pow_left₀ (by norm_num) h1 64
  have h4 : (21:ℝ) ≤ ((334027:ℝ)/318402) ^ 64 := by
    calc (21:ℝ) ≤ ((1049:ℝ)/1000) ^ 64 := by norm_num
      _ ≤ ((334027:ℝ)/318402) ^ 64 :=
        pow_le_pow_left₀ (by norm_num) (by norm_num) 64
  have h5 : (21:ℝ) ≤ Real.exp ((500000:ℝ)/159201) := le_trans h4 h2
  rw [Real.exp_neg]
  calc (Real.exp ((500000:ℝ)/159201))⁻¹ ≤ ((21:ℝ))⁻¹ :=
      inv_anti₀ (by norm_num) h5
    _ = 1/21 := by norm_num

/-- At miss 0, each node value of the integrand is bounded by
`(1000/399)·i·(1/21)^i`. -/
theorem pcNode_value_le (i : ℕ) :
    pcIntegrand 0 1 (pcNode 1000 400 i) ≤
      (1000/399) * i * ((1:ℝ)/21) ^ i := by
  unfold pcIntegrand pcNode
  have hcast : ((400:ℕ):ℝ) - 1 = 399 := by norm_num
  rw [hcast]
  rw [show (1000 * (i:ℝ) / 399) * 0 / 1 = 0 by ring, besselI0_zero,
    mul_one]
  have harg : -((1000 * (i:ℝ) / 399) * (1000 * (i:ℝ) / 399) + 0 * 0) /
      (2 * 1) = ((i ^ 2 : ℕ) : ℝ) * (-(500000/159201)) := by
    push_cast
    ring
  rw [harg, Real.exp_nat_mul]
  have hexp : Real.exp (-(500000/159201)) ^ (i ^ 2) ≤ ((1:ℝ)/21) ^ i := by
    calc Real.exp (-(500000/159201)) ^ (i ^ 2) ≤ ((1:ℝ)/21) ^ (i ^ 2) :=
        pow_le_pow_left₀ (Real.exp_nonneg _) exp_half_le _
      _ ≤ ((1:ℝ)/21) ^ i :=
        pow_le_pow_of_le_one (by norm_num) (by norm_num)
          (Nat.le_self_pow (by norm_num) i)
  have hρ : (0:ℝ) ≤ 1000 * (i:ℝ) / 399 / 1 := by positivity
  calc 1000 * (i:ℝ) / 399 / 1 * Real.exp (-(500000/159201)) ^ (i ^ 2) ≤
      1000 * (i:ℝ) / 399 / 1 * (((1:ℝ)/21) ^ i) :=
      mul_le_mul_of_nonneg_left hexp hρ
    _ = (1000/399) * i * ((1:ℝ)/21) ^ i := by ring

/-- The weighted geometric sum `Σ i·(1/21)^i` over the grid is at most
`1/19`. -/
theorem weighted_geom_le :
    ∑ i ∈ Finset.range 400, (i:ℝ) * ((1:ℝ)/21) ^ i ≤ 1/19 := by
  have h400 : (400:ℕ) = 399 + 1 := rfl
  rw [h400, Finset.sum_range_succ']
  have h5 : ∀ i ∈ Finset.range 399,
      ((i + 1 : ℕ):ℝ) * ((1:ℝ)/21) ^ (i + 1) ≤
        (1/21) * ((2:ℝ)/21) ^ i := by
    intro i _
    have hle : ((i + 1 : ℕ):ℝ) ≤ (2:ℝ) ^ i := by
      exact_mod_cast Nat.lt_two_pow i
    have hpow : ((2:ℝ)/21) ^ i = 2 ^ i * ((1:ℝ)/21) ^ i := by
      rw [← mul_pow]
      norm_num
    calc ((i + 1 : ℕ):ℝ) * ((1:ℝ)/21) ^ (i + 1) ≤
        (2:ℝ) ^ i * ((1:ℝ)/21) ^ (i + 1) :=
        mul_le_mul_of_nonneg_right hle (by positivity)
      _ = (1/21) * ((2:ℝ)/21) ^ i := by
        rw [hpow, pow_succ]
        ring
  have h6 := Finset.sum_le_sum h5
  have h7 := geom_range_le 399
  have h8 : ∑ i ∈ Finset.range 399, (1/21) * ((2:ℝ)/21) ^ i =
      (1/21) * ∑ i ∈ Finset.range 399, ((2:ℝ)/21) ^ i := by
    rw [Finset.mul_sum]
  have h9 : (1/21) * ∑ i ∈ Finset.range 399, ((2:ℝ)/21) ^ i ≤
      (1/21) * (21/19) := mul_le_mul_of_nonneg_left h7 (by norm_num)
  rw [h8] at h6
  have h10 := le_trans h6 h9
  simp only [Nat.cast_zero, zero_mul, add_zero]
  have h11 : ((1:ℝ)/21) * (21/19) = 1/19 := by norm_num
  exact le_trans h10 (le_of_eq h11)

/-- The trapezoid value at miss 0 is at most `17/50`. -/
theorem pcTrapz_B : pcTrapz 0 1 1000 400 ≤ 17/50 := by
  have hr399 : (400 - 1 : ℕ) = 399 := rfl
  have hgnn : ∀ i : ℕ, 0 ≤ pcIntegrand 0 1 (pcNode 1000 400 i) :=
    fun i => pcIntegrand_nonneg one_pos (pcNode_nonneg i)
  unfold pcTrapz
  rw [hr399]
  have hsum : ∑ i ∈ Finset.range 399,
      (pcNode 1000 400 (i + 1) - pcNode 1000 400 i) *
        (pcIntegrand 0 1 (pcNode 1000 400 i) +
          pcIntegrand 0 1 (pcNode 1000 400 (i + 1))) / 2 =
      ∑ i ∈ Finset.range 399, ((1000:ℝ)/399) *
        (pcIntegrand 0 1 (pcNode 1000 400 i) +
          pcIntegrand 0 1 (pcNode 1000 400 (i + 1))) / 2 :=
    Finset.sum_congr rfl (fun i _ => by rw [pcNode_sub])
  rw [hsum]
  have h1 := trapz_sum_le (g := fun i => pcIntegrand 0 1 (pcNode 1000 400 i))
    (by norm_num : (0:ℝ) ≤ 1000/399) hgnn 399
  refine le_trans h1 ?_
  have h2 : ∑ i ∈ Finset.range (399 + 1),
      pcIntegrand 0 1 (pcNode 1000 400 i) ≤
      ∑ i ∈ Finset.range 400, (1000/399) * i * ((1:ℝ)/21) ^ i :=
    Finset.sum_le_sum (fun i _ => pcNode_value_le i)
  have h3 : ∑ i ∈ Finset.range 400, ((1000:ℝ)/399) * i * ((1:ℝ)/21) ^ i =
      (1000/399) * ∑ i ∈ Finset.range 400, (i:ℝ) * ((1:ℝ)/21) ^ i := by
    rw [Finset.mul_sum]
    exact Finset.sum_congr rfl (fun i _ => by ring)
  have h4 : ∑ i ∈ Finset.range (399 + 1),
      pcIntegrand 0 1 (pcNode 1000 400 i) ≤ (1000/399) * (1/19) := by
    rw [h3] at h2
    exact le_trans h2 (mul_le_mul_of_nonneg_left weighted_geom_le
      (by norm_num : (0:ℝ) ≤ 1000/399))
  have h5 := mul_le_mul_of_nonneg_left h4
    (by norm_num : (0:ℝ) ≤ 1000/399)
  refine le_trans h5 ?_
  norm_num

/-- C2 (counterexample): the Pc quadrature is NOT monotone non-increasing
in the miss distance.  With `σ = 1` and hard-body radius `1000`, 400
`linspace` nodes are spaced `1000/399 ≈ 2.5σ` apart — far too coarse for
the integrand — and at miss `7/10` every `i0` argument stays at or below
700 (so the isfinite guard does not fire), yet the node-1 trapezoid term
alone contributes at least `7/20`, while at miss 0 the whole quadrature
stays below `17/50`: `pc(0, σ, R) < pc(7/10, σ, R)` with
`miss = 7/10 ≥ 0`, `σ > 0`, `R > 0`. -/
theorem pc_monotone_counterexample :
    (0:ℝ) ≤ 7/10 ∧ (0:ℝ) < 1 ∧ (0:ℝ) < 1000 ∧
    pcAssumedEncounterIsotropic 0 1 1000 400 <
      pcAssumedEncounterIsotropic (7/10) 1 1000 400 := by
  refine ⟨by norm_num, by norm_num, by norm_num, ?_⟩
  have hm : max (0:ℝ) (7/10) = 7/10 := max_eq_right (by norm_num)
  have hm0 : max (0:ℝ) 0 = 0 := max_self 0
  have hr : max (0:ℝ) 1000 = 1000 := max_eq_right (by norm_num)
  have hc : max 16 400 = 400 := by norm_num
  have hB : pcAssumedEncounterIsotropic 0 1 1000 400 ≤ 17/50 := by
    simp only [pcAssumedEncounterIsotropic]
    rw [hm0, hr, hc, one_mul, if_neg (by norm_num)]
    split
    · norm_num
    · exact max_le (by norm_num) (le_trans (min_le_right 1 _) pcTrapz_B)
  have hA : (7/20:ℝ) ≤ pcAssumedEncounterIsotropic (7/10) 1 1000 400 := by
    simp only [pcAssumedEncounterIsotropic]
    rw [hm, hr, hc, one_mul, if_neg (by norm_num),
      if_neg pcNonFinite_spot_false]
    calc (7/20:ℝ) = min 1 (7/20) := (min_eq_right (by norm_num)).symm
      _ ≤ min 1 (pcTrapz (7/10) 1 1000 400) := min_le_min le_rfl pcTrapz_A
      _ ≤ max 0 (min 1 (pcTrapz (7/10) 1 1000 400)) := le_max_right 0 _
  linarith

/-- C2 (amended): the guard zeros hold — `pc(miss, σ, 0) = 0` and
`pc(miss, 0, R) = 0` — and the returned value always lies in `[0, 1]`
(both the `np.isfinite` path and the clamp land there); the monotonicity
conjunct `pc(miss, σ, R) ≤ pc(0, σ, R)` of the original claim is refuted
by `pc_monotone_counterexample`. -/
theorem pc_isotropic_amended :
    (∀ (miss sigma : ℝ) (n_r : ℕ),
        pcAssumedEncounterIsotropic miss sigma 0 n_r = 0) ∧
    (∀ (miss hbr : ℝ) (n_r : ℕ),
        pcAssumedEncounterIsotropic miss 0 hbr n_r = 0) ∧
    (∀ (miss sigma hbr : ℝ) (n_r : ℕ),
        0 ≤ pcAssumedEncounterIsotropic miss sigma hbr n_r ∧
          pcAssumedEncounterIsotropic miss sigma hbr n_r ≤ 1) := by
  refine ⟨?_, ?_, ?_⟩
  · intro miss sigma n_r
    simp only [pcAssumedEncounterIsotropic]
    rw [if_pos (Or.inr (by simp))]
  · intro miss hbr n_r
    simp only [pcAssumedEncounterIsotropic]
    rw [if_pos (Or.inl le_rfl)]
  · intro miss sigma hbr n_r
    simp only [pcAssumedEncounterIsotropic]
    split
    · norm_num
    · split
      · norm_num
      · exact ⟨le_max_left 0 _, max_le (by norm_num) (min_le_left 1 _)⟩


end AstraGuard
